import Mathlib

/-!
Verification of the SimpleFin sync and query layer (`src/services/db.py` and
`src/data-sync-scripts/simple-fin-chase-transactions.py`) as a shallow
embedding.  The database state is three tables held as lists of rows; each
Python function that opens a unit of work through the `get_db` context
manager becomes a Lean function from a `DBState` (plus the wall-clock value
supplied by the SQL `NOW()` / `CURRENT_DATE`) to a `UnitOfWork` result that
records the final state, the returned-or-raised outcome, and the trace of
connection operations.
-/

namespace FinanceSync

/-- Row of the `accounts` table: `accounts(id PK, name, currency, balance,
available_balance, balance_date, updated_at)`.  Monetary amounts are modelled
as integers (the claims under verification never depend on fractional
arithmetic) and timestamps as integers (epoch seconds for row times, as the
source passes epoch values through `to_timestamp`). -/
structure AccountRow where
  id : String
  name : String
  currency : String
  balance : Int
  available_balance : Int
  balance_date : Int
  updated_at : Int
  deriving DecidableEq, Repr

/-- Row of the `account_snapshots` table with unique key
`(account_id, balance_date)`. -/
structure SnapshotRow where
  account_id : String
  balance : Int
  available_balance : Int
  balance_date : Int
  snapshot_taken_at : Int
  deriving DecidableEq, Repr

/-- Row of the `transactions` table keyed by the external transaction id. -/
structure TransactionRow where
  id : String
  account_id : String
  posted : Bool
  amount : Int
  description : String
  payee : String
  memo : String
  transacted_at : Int
  pending : Bool
  last_updated_at : Int
  deriving DecidableEq, Repr

/-- The whole database: the three tables touched by the sync and query layer. -/
structure DBState where
  accounts : List AccountRow
  snapshots : List SnapshotRow
  transactions : List TransactionRow
  deriving DecidableEq, Repr

/-- Connection-level operations performed by `get_db`, recorded as a trace so
that commit/rollback/close behaviour can be stated. -/
inductive ConnOp where
  | connect
  | commit
  | rollback
  | close
  deriving DecidableEq, Repr

/-- Result of one unit of work run under `get_db`: the database state after
the unit of work, the value returned (or the exception re-raised, as
`Except.error`), and the trace of connection operations in order. -/
structure UnitOfWork (α : Type) where
  finalState : DBState
  result : Except String α
  trace : List ConnOp
  deriving Repr

/-- Embedding of the `get_db` context manager (db.py lines 13-23): connect,
run the body; on normal completion commit, on exception roll back (the state
reverts to the state at entry) and re-raise; close the connection on every
exit path. -/
def get_db {α : Type} (st : DBState) (work : DBState → Except String (DBState × α)) :
    UnitOfWork α :=
  match work st with
  | Except.ok (st2, a) =>
      { finalState := st2, result := Except.ok a,
        trace := [ConnOp.connect, ConnOp.commit, ConnOp.close] }
  | Except.error e =>
      { finalState := st, result := Except.error e,
        trace := [ConnOp.connect, ConnOp.rollback, ConnOp.close] }

/-- Pure effect of the accounts upsert statement (db.py lines 50-59).  The
`ON CONFLICT (id) DO UPDATE` branch sets name, balance, available_balance,
balance_date and `updated_at = NOW()`; it does not touch `currency`.  The
insert branch supplies every listed column.

Modelled from the spec: the SQL schema (DDL) is not in the repository
source, so the default of the `updated_at` column on plain insert is
modelled as the current time, following the data model of the spec in which
each sync stamps the record-updated timestamp. -/
def accountsUpsertRows (now : Int) (account_id name currency : String)
    (balance available_balance balance_date : Int) (rows : List AccountRow) :
    List AccountRow :=
  if rows.any (fun r => r.id == account_id) then
    rows.map (fun r =>
      if r.id == account_id then
        { r with name := name, balance := balance,
                 available_balance := available_balance,
                 balance_date := balance_date, updated_at := now }
      else r)
  else
    rows ++
      [{ id := account_id, name := name, currency := currency,
         balance := balance, available_balance := available_balance,
         balance_date := balance_date, updated_at := now }]

/-- The accounts upsert statement as a state transformer: it reads and
writes only the `accounts` table. -/
def accountsUpsert (now : Int) (account_id name currency : String)
    (balance available_balance balance_date : Int) (st : DBState) : DBState :=
  { st with accounts := (accountsUpsertRows now account_id name currency balance
      available_balance balance_date st.accounts) }

/-- Embedding of `update_accounts_table` (db.py lines 36-72): one unit of
work that executes the accounts upsert; `cur.rowcount` is 1 both for the
insert branch and for the conflict-update branch. -/
def update_accounts_table (st : DBState) (now : Int) (account_id name currency : String)
    (balance available_balance balance_date : Int) : UnitOfWork Nat :=
  get_db st (fun s =>
    Except.ok (accountsUpsert now account_id name currency balance
      available_balance balance_date s, 1))

/-- Pure effect of the snapshots upsert statement (db.py lines 173-182).
The conflict key is `(account_id, balance_date)`; on conflict the statement
sets balance, available_balance and `snapshot_taken_at = NOW()`.

Modelled from the spec: the DDL is absent from the source, so the insert
default of `snapshot_taken_at` is modelled as the current time, following
the snapshot-taken timestamp attribute of the spec. -/
def snapshotsUpsertRows (now : Int) (account_id : String)
    (balance available_balance balance_date : Int) (rows : List SnapshotRow) :
    List SnapshotRow :=
  if rows.any (fun r => r.account_id == account_id && r.balance_date == balance_date) then
    rows.map (fun r =>
      if r.account_id == account_id && r.balance_date == balance_date then
        { r with balance := balance, available_balance := available_balance,
                 snapshot_taken_at := now }
      else r)
  else
    rows ++
      [{ account_id := account_id, balance := balance,
         available_balance := available_balance, balance_date := balance_date,
         snapshot_taken_at := now }]

/-- The snapshots upsert statement as a state transformer: it reads and
writes only the `account_snapshots` table. -/
def snapshotsUpsert (now : Int) (account_id : String)
    (balance available_balance balance_date : Int) (st : DBState) : DBState :=
  { st with snapshots := (snapshotsUpsertRows now account_id balance
      available_balance balance_date st.snapshots) }

/-- Embedding of `update_account_snapshots_table` (db.py lines 150-196). -/
def update_account_snapshots_table (st : DBState) (now : Int) (account_id : String)
    (balance available_balance balance_date : Int) : UnitOfWork Nat :=
  get_db st (fun s =>
    Except.ok (snapshotsUpsert now account_id balance available_balance balance_date s, 1))

/-- Input shape of one transaction record from the SimpleFin payload.  A
field holds `none` when the key is absent from the JSON dict; `posted` is
the raw 0/1 indicator. -/
structure TxnInput where
  id : Option String
  posted : Option Int
  amount : Option Int
  description : Option String
  payee : Option String
  memo : Option String
  transacted_at : Option Int
  pending : Option Bool
  deriving DecidableEq, Repr

/-- Values actually bound for one record inside the loop of
`update_transactions_table` (db.py lines 99-130). -/
structure ParsedTxn where
  id : String
  posted_flag : Bool
  amount : Int
  description : String
  payee : String
  memo : String
  transacted_at : Int
  pending : Bool
  deriving DecidableEq, Repr

/-- Per-record field access of the loop body (db.py lines 99-130): the
subscript accesses `txn[amount]`, `txn[id]`, `txn[posted]` and
`txn[transacted_at]` raise `KeyError` when the key is absent, while
description, payee and memo default to the empty string via `.get` and
`pending` defaults to `False` via `.get`; `posted` is compared with 1 to
produce the stored boolean. -/
def parseTxn (txn : TxnInput) : Except String ParsedTxn :=
  match txn.amount with
  | none => Except.error "KeyError: amount"
  | some amount =>
    match txn.id with
    | none => Except.error "KeyError: id"
    | some i =>
      match txn.posted with
      | none => Except.error "KeyError: posted"
      | some p =>
        match txn.transacted_at with
        | none => Except.error "KeyError: transacted_at"
        | some ta =>
          Except.ok
            { id := i, posted_flag := p == 1, amount := amount,
              description := txn.description.getD "",
              payee := txn.payee.getD "", memo := txn.memo.getD "",
              transacted_at := ta, pending := txn.pending.getD false }

/-- Row inserted for a freshly seen transaction id.

Modelled from the spec: the DDL is absent from the source, so the insert
default of `last_updated_at` is modelled as the current time, following the
last-updated timestamp attribute of the spec. -/
def newTxnRow (now : Int) (account_id : String) (p : ParsedTxn) : TransactionRow :=
  { id := p.id, account_id := account_id, posted := p.posted_flag,
    amount := p.amount, description := p.description, payee := p.payee,
    memo := p.memo, transacted_at := p.transacted_at, pending := p.pending,
    last_updated_at := now }

/-- Pure effect of the per-record transactions upsert statement (db.py lines
103-130) on the rows of the `transactions` table.  `ON CONFLICT (id) DO
UPDATE` overwrites posted, amount, description, payee, memo, transacted_at,
pending and stamps `last_updated_at = NOW()`; it does not change
`account_id`. -/
def txnUpsertRows (now : Int) (account_id : String) (p : ParsedTxn)
    (rows : List TransactionRow) : List TransactionRow :=
  if rows.any (fun r => r.id == p.id) then
    rows.map (fun r =>
      if r.id == p.id then
        { r with posted := p.posted_flag, amount := p.amount,
                 description := p.description, payee := p.payee, memo := p.memo,
                 transacted_at := p.transacted_at, pending := p.pending,
                 last_updated_at := now }
      else r)
  else
    rows ++ [newTxnRow now account_id p]

/-- Body of the loop in `update_transactions_table` (db.py lines 95-142) on
the rows of the `transactions` table (the only table the loop touches): the
records are processed in order; each record is parsed and upserted and
`cur.rowcount` (always 1 for this upsert) is accumulated; the first record
that fails to parse raises, aborting the remainder. -/
def txnStep (now : Int) (account_id : String) (acc : List TransactionRow × Nat)
    (txn : TxnInput) : Except String (List TransactionRow × Nat) :=
  match parseTxn txn with
  | Except.error e => Except.error e
  | Except.ok p => Except.ok (txnUpsertRows now account_id p acc.1, acc.2 + 1)

def transactionsWorkRows (now : Int) (account_id : String) (txns : List TxnInput)
    (rows : List TransactionRow) : Except String (List TransactionRow × Nat) :=
  txns.foldlM (txnStep now account_id) (rows, 0)

/-- The transaction batch loop as a unit of work over the whole state. -/
def transactionsWork (now : Int) (account_id : String) (txns : List TxnInput)
    (st : DBState) : Except String (DBState × Nat) :=
  match transactionsWorkRows now account_id txns st.transactions with
  | Except.error e => Except.error e
  | Except.ok (rows, n) => Except.ok ({ st with transactions := rows }, n)

/-- Embedding of `update_transactions_table` (db.py lines 74-148): the whole
batch runs inside one `get_db` unit of work, so an exception raised by any
record rolls back every insert of the batch and is re-raised. -/
def update_transactions_table (st : DBState) (now : Int) (account_id : String)
    (txns : List TxnInput) : UnitOfWork Nat :=
  get_db st (transactionsWork now account_id txns)

/-- Account-level record of the SimpleFin payload as consumed by
`sync_account_from_api` (the account fields it subscripts are required for
the call to be reached at all, so they are typed directly). -/
structure AccountPayload where
  id : String
  name : String
  currency : String
  balance : Int
  available_balance : Int
  balance_date : Int
  transactions : List TxnInput
  deriving Repr

/-- Embedding of `sync_account_from_api` (simple-fin-chase-transactions.py
lines 52-87): account upsert, then snapshot upsert, then — only when the
transaction list is non-empty — the transaction batch upsert.  Each of the
three runs in its own `get_db` unit of work, so the first two commits
survive a failure of the third; the exception of the third propagates. -/
def sync_account_from_api (st : DBState) (now : Int) (a : AccountPayload) :
    DBState × Except String Unit :=
  let u1 := update_accounts_table st now a.id a.name a.currency a.balance
      a.available_balance a.balance_date
  let u2 := update_account_snapshots_table u1.finalState now a.id a.balance
      a.available_balance a.balance_date
  if a.transactions.isEmpty then
    (u2.finalState, Except.ok ())
  else
    let u3 := update_transactions_table u2.finalState now a.id a.transactions
    match u3.result with
    | Except.ok _ => (u3.finalState, Except.ok ())
    | Except.error e => (u3.finalState, Except.error e)

/-- Embedding of `sync_all_accounts` (simple-fin-chase-transactions.py lines
90-102): a plain `for` loop over the accounts with no exception handler, so
an exception raised while syncing one account propagates and the remaining
accounts are never processed. -/
def sync_all_accounts (st : DBState) (now : Int) :
    List AccountPayload → DBState × Except String Unit
  | [] => (st, Except.ok ())
  | a :: rest =>
    match sync_account_from_api st now a with
    | (st1, Except.ok _) => sync_all_accounts st1 now rest
    | (st1, Except.error e) => (st1, Except.error e)

/-- Flat record returned by `get_todays_transactions` (db.py lines 211-224):
account name joined in, then amount, description, payee, memo,
transacted_at, pending. -/
structure TxnView where
  account_name : String
  amount : Int
  description : String
  payee : String
  memo : String
  transacted_at : Int
  pending : Bool
  deriving DecidableEq, Repr

/-- Calendar-day bucket of a timestamp, the model of the SQL `DATE(...)`
truncation: epoch seconds floored to whole days. -/
def dateOf (ts : Int) : Int := Int.fdiv ts 86400

/-- View row built by the SELECT list for a matching account/transaction
pair. -/
def mkView (a : AccountRow) (t : TransactionRow) : TxnView :=
  { account_name := a.name, amount := t.amount, description := t.description,
    payee := t.payee, memo := t.memo, transacted_at := t.transacted_at,
    pending := t.pending }

/-- Relational core of the query (db.py lines 211-224) before ordering:
transactions whose transacted-at date equals `CURRENT_DATE - INTERVAL 1 day`
inner-joined with the accounts row whose id matches `account_id`.
`today` is the day bucket of `CURRENT_DATE` at call time. -/
def joinedRows (st : DBState) (today : Int) : List TxnView :=
  (st.transactions.filter (fun t => dateOf t.transacted_at == today - 1)).flatMap
    (fun t => (st.accounts.filter (fun a => t.account_id == a.id)).map
      (fun a => mkView a t))

/-- Embedding of `get_todays_transactions` (db.py lines 198-239): one
read-only unit of work returning the joined rows ordered by transacted_at
descending (`ORDER BY t.transacted_at DESC`; ties are in an unspecified
order, realised here by a stable merge sort). -/
def get_todays_transactions (st : DBState) (today : Int) : UnitOfWork (List TxnView) :=
  get_db st (fun s =>
    Except.ok (s, (joinedRows s today).mergeSort
      (fun v1 v2 => v2.transacted_at ≤ v1.transacted_at)))

/-! ### Helper predicates and lemmas -/

/-- Some row of the accounts table carries the given account id. -/
def hasAccountId (rows : List AccountRow) (i : String) : Prop :=
  ∃ r ∈ rows, r.id = i

/-- Some row of the transactions table carries the given transaction id. -/
def hasTxnId (rows : List TransactionRow) (i : String) : Prop :=
  ∃ r ∈ rows, r.id = i

/-- A transaction input record parses without raising. -/
def parses (txn : TxnInput) : Prop :=
  ∃ p, parseTxn txn = Except.ok p

/-- Every transaction record of an account payload parses, so its batch
upsert raises no exception. -/
def accountOk (a : AccountPayload) : Prop :=
  ∀ t ∈ a.transactions, parses t

theorem any_id_accounts (rows : List AccountRow) (i : String) :
    rows.any (fun r => r.id == i) = true ↔ hasAccountId rows i := by
  simp [hasAccountId, List.any_eq_true]

theorem any_id_txns (rows : List TransactionRow) (i : String) :
    rows.any (fun r => r.id == i) = true ↔ hasTxnId rows i := by
  simp [hasTxnId, List.any_eq_true]

/-! ### C9: scoped unit of work -/

/-- C9: every unit of work run under `get_db` closes the connection as its
final connection operation on every exit path; when the body completes
without exception the final state is the state the body produced, the value
is returned and the trace commits without rolling back; when the body raises,
the state at entry is restored, the same error is re-raised and the trace
rolls back without committing. -/
theorem C9_get_db_unit_of_work {α : Type} (st : DBState)
    (work : DBState → Except String (DBState × α)) :
    (get_db st work).trace.getLast? = some ConnOp.close ∧
    (∀ st2 a, work st = Except.ok (st2, a) →
      (get_db st work).finalState = st2 ∧ (get_db st work).result = Except.ok a ∧
      ConnOp.commit ∈ (get_db st work).trace ∧
      ConnOp.rollback ∉ (get_db st work).trace) ∧
    (∀ e, work st = Except.error e →
      (get_db st work).finalState = st ∧ (get_db st work).result = Except.error e ∧
      ConnOp.rollback ∈ (get_db st work).trace ∧
      ConnOp.commit ∉ (get_db st work).trace) := by
  cases hw : work st with
  | ok v =>
    obtain ⟨st2, a⟩ := v
    refine ⟨by simp [get_db, hw, List.getLast?], ?_, ?_⟩
    · intro st2' a' h
      cases h
      simp [get_db, hw]
    · intro e h
      cases h
  | error e =>
    refine ⟨by simp [get_db, hw, List.getLast?], ?_, ?_⟩
    · intro st2' a' h
      cases h
    · intro e' h
      cases h
      simp [get_db, hw]

/-- Witness for C9: the commit path and the rollback path of `get_db`,
each at a concrete state and body. -/
theorem C9_get_db_unit_of_work_witness :
    (get_db ⟨[], [], []⟩ (fun s => Except.ok (s, 42))).trace.getLast?
        = some ConnOp.close ∧
    (get_db ⟨[], [], []⟩ (fun s => Except.ok (s, 42))).finalState = ⟨[], [], []⟩ ∧
    (get_db ⟨[], [], []⟩
        (fun _ => (Except.error "boom" : Except String (DBState × Nat)))).finalState
        = ⟨[], [], []⟩ := by
  have h1 := C9_get_db_unit_of_work ⟨[], [], []⟩
    (fun s => (Except.ok (s, 42) : Except String (DBState × Nat)))
  have h2 := C9_get_db_unit_of_work ⟨[], [], []⟩
    (fun _ => (Except.error "boom" : Except String (DBState × Nat)))
  exact ⟨h1.1, (h1.2.1 ⟨[], [], []⟩ 42 rfl).1, (h2.2.2 "boom" rfl).1⟩

/-! ### C2: account upsert on conflict -/

/-- C2 is refuted as stated: the conflict branch of the accounts upsert does
not overwrite the currency code.  Upserting an existing account `a1` whose
stored currency is `USD` with new currency `CAD` leaves the stored currency
`USD`. -/
theorem C2_counterexample :
    (∃ r ∈ (update_accounts_table
        ⟨[⟨"a1", "Old", "USD", 1, 1, 1, 0⟩], [], []⟩
        9 "a1" "New" "CAD" 5 6 7).finalState.accounts, r.id = "a1") ∧
    (∀ r ∈ (update_accounts_table
        ⟨[⟨"a1", "Old", "USD", 1, 1, 1, 0⟩], [], []⟩
        9 "a1" "New" "CAD" 5 6 7).finalState.accounts,
      r.id = "a1" → ¬ r.currency = "CAD") := by
  decide

/-- C2 (amended): on an account upsert whose id already has a row, the
operation keeps the row count, rewrites each row of that id with the new
name, balance, available balance and balance-date and stamps
`updated_at = NOW()` while keeping the stored currency code, leaves the
whole currency column unchanged, and leaves rows of other ids unchanged. -/
theorem C2_account_upsert_overwrites (st : DBState) (now : Int)
    (aid nm cur : String) (b ab bd : Int)
    (h : ∃ r ∈ st.accounts, r.id = aid) :
    ((update_accounts_table st now aid nm cur b ab bd).finalState.accounts.length
        = st.accounts.length) ∧
    (∀ r ∈ st.accounts, r.id = aid →
      ({ r with name := nm, balance := b, available_balance := ab,
                balance_date := bd, updated_at := now } : AccountRow)
        ∈ (update_accounts_table st now aid nm cur b ab bd).finalState.accounts) ∧
    ((update_accounts_table st now aid nm cur b ab bd).finalState.accounts.map
        (fun r => r.currency) = st.accounts.map (fun r => r.currency)) ∧
    (∀ r ∈ st.accounts, r.id ≠ aid →
      r ∈ (update_accounts_table st now aid nm cur b ab bd).finalState.accounts) := by
  have hany : st.accounts.any (fun r => r.id == aid) = true := by
    rw [any_id_accounts]; exact h
  have hacc : (update_accounts_table st now aid nm cur b ab bd).finalState.accounts
      = st.accounts.map (fun r =>
          if r.id == aid then
            { r with name := nm, balance := b, available_balance := ab,
                     balance_date := bd, updated_at := now }
          else r) := by
    simp [update_accounts_table, get_db, accountsUpsert, accountsUpsertRows, hany]
  rw [hacc]
  refine ⟨List.length_map _ _, ?_, ?_, ?_⟩
  · intro r hr hid
    exact List.mem_map.mpr ⟨r, hr, by simp [hid]⟩
  · rw [List.map_map]
    apply List.map_congr_left
    intro r _
    by_cases hid : r.id = aid <;> simp [hid]
  · intro r hr hid
    refine List.mem_map.mpr ⟨r, hr, ?_⟩
    simp [hid]

/-- Witness for C2 (amended) at a concrete one-row table. -/
theorem C2_account_upsert_overwrites_witness :
    ((update_accounts_table ⟨[⟨"a1", "Old", "USD", 1, 2, 3, 0⟩], [], []⟩
        9 "a1" "New" "CAD" 5 6 7).finalState.accounts.length = 1) ∧
    (({ id := "a1", name := "New", currency := "USD", balance := 5,
        available_balance := 6, balance_date := 7, updated_at := 9 } : AccountRow)
      ∈ (update_accounts_table ⟨[⟨"a1", "Old", "USD", 1, 2, 3, 0⟩], [], []⟩
          9 "a1" "New" "CAD" 5 6 7).finalState.accounts) := by
  have h := C2_account_upsert_overwrites
    ⟨[⟨"a1", "Old", "USD", 1, 2, 3, 0⟩], [], []⟩ 9 "a1" "New" "CAD" 5 6 7
    ⟨⟨"a1", "Old", "USD", 1, 2, 3, 0⟩, by simp, rfl⟩
  exact ⟨h.1, h.2.1 ⟨"a1", "Old", "USD", 1, 2, 3, 0⟩ (by simp) rfl⟩

/-! ### Per-record persistence: C4, C8, C10 -/

theorem transactionsWork_singleton_fresh (st : DBState) (now : Int) (acct : String)
    (txn : TxnInput) (p : ParsedTxn) (hp : parseTxn txn = Except.ok p)
    (fresh : ∀ r ∈ st.transactions, r.id ≠ p.id) :
    update_transactions_table st now acct [txn] =
      ⟨{ st with transactions := st.transactions ++ [newTxnRow now acct p] },
       Except.ok 1, [ConnOp.connect, ConnOp.commit, ConnOp.close]⟩ := by
  have hany : st.transactions.any (fun r => r.id == p.id) = false := by
    rw [List.any_eq_false]
    intro r hr
    simp [fresh r hr]
  simp [update_transactions_table, get_db, transactionsWork, transactionsWorkRows,
        List.foldlM, txnStep, hp, txnUpsertRows, hany]

theorem transactionsWork_singleton_err (st : DBState) (now : Int) (acct : String)
    (txn : TxnInput) (e : String) (hp : parseTxn txn = Except.error e) :
    update_transactions_table st now acct [txn] =
      ⟨st, Except.error e, [ConnOp.connect, ConnOp.rollback, ConnOp.close]⟩ := by
  simp [update_transactions_table, get_db, transactionsWork, transactionsWorkRows,
        List.foldlM, txnStep, hp]

/-- C4 is refuted as stated: a transaction record whose posted indicator is
absent is not persisted with posted = false — the subscript raises
`KeyError`, the batch rolls back and nothing at all is persisted. -/
theorem C4_counterexample :
    (update_transactions_table ⟨[], [], []⟩ 0 "a1"
        [⟨some "t1", none, some 5, none, none, none, some 100, none⟩]).result
      = Except.error "KeyError: posted" ∧
    (update_transactions_table ⟨[], [], []⟩ 0 "a1"
        [⟨some "t1", none, some 5, none, none, none, some 100, none⟩]
      ).finalState.transactions = [] := by
  constructor <;> rfl

/-- C4 (amended): for a transaction record whose posted indicator is present,
the batch upsert persists posted = true when the indicator equals 1 and
posted = false for any other present value; a record whose posted indicator
is absent raises `KeyError`, so the batch fails with that error and the state
is unchanged instead of persisting posted = false. -/
theorem C4_posted_coercion (st : DBState) (now : Int) (acct : String)
    (txn : TxnInput) (i : String) (amt ta : Int)
    (hid : txn.id = some i) (ham : txn.amount = some amt)
    (hta : txn.transacted_at = some ta)
    (fresh : ∀ r ∈ st.transactions, r.id ≠ i) :
    (∀ v, txn.posted = some v →
      ∃ row, (update_transactions_table st now acct [txn]).finalState.transactions
          = st.transactions ++ [row] ∧ row.id = i ∧
        (v = 1 → row.posted = true) ∧ (v ≠ 1 → row.posted = false) ∧
        (update_transactions_table st now acct [txn]).result = Except.ok 1) ∧
    (txn.posted = none →
      (update_transactions_table st now acct [txn]).result
          = Except.error "KeyError: posted" ∧
      (update_transactions_table st now acct [txn]).finalState = st) := by
  constructor
  · intro v hv
    have hp : parseTxn txn = Except.ok
        ⟨i, v == 1, amt, txn.description.getD "", txn.payee.getD "",
         txn.memo.getD "", ta, txn.pending.getD false⟩ := by
      simp [parseTxn, hid, ham, hta, hv]
    have heq := transactionsWork_singleton_fresh st now acct txn _ hp fresh
    refine ⟨newTxnRow now acct
        ⟨i, v == 1, amt, txn.description.getD "", txn.payee.getD "",
         txn.memo.getD "", ta, txn.pending.getD false⟩,
      by rw [heq], rfl, ?_, ?_, by rw [heq]⟩
    · intro hv1
      simp [newTxnRow, hv1]
    · intro hv1
      simp [newTxnRow, hv1]
  · intro hv
    have hp : parseTxn txn = Except.error "KeyError: posted" := by
      simp [parseTxn, hid, ham, hta, hv]
    have heq := transactionsWork_singleton_err st now acct txn _ hp
    rw [heq]
    exact ⟨rfl, rfl⟩

/-- Witness for C4 (amended): a record with posted indicator 0 and a fresh
id is persisted with posted = false. -/
theorem C4_posted_coercion_witness :
    ∃ row, (update_transactions_table ⟨[], [], []⟩ 7 "a1"
        [⟨some "t1", some 0, some 5, none, none, none, some 100, none⟩]
      ).finalState.transactions = [] ++ [row] ∧ row.id = "t1" ∧
      ((0 : Int) = 1 → row.posted = true) ∧ ((0 : Int) ≠ 1 → row.posted = false) ∧
      (update_transactions_table ⟨[], [], []⟩ 7 "a1"
        [⟨some "t1", some 0, some 5, none, none, none, some 100, none⟩]).result
        = Except.ok 1 := by
  have h := C4_posted_coercion ⟨[], [], []⟩ 7 "a1"
    ⟨some "t1", some 0, some 5, none, none, none, some 100, none⟩
    "t1" 5 100 rfl rfl rfl (by simp)
  exact h.1 0 rfl

/-- C8: a transaction record that omits description, payee and memo is
persisted with those three fields equal to the empty string, with no error. -/
theorem C8_field_defaulting (st : DBState) (now : Int) (acct : String)
    (txn : TxnInput) (i : String) (pv amt ta : Int)
    (hid : txn.id = some i) (hpo : txn.posted = some pv)
    (ham : txn.amount = some amt) (hta : txn.transacted_at = some ta)
    (hdesc : txn.description = none) (hpay : txn.payee = none)
    (hmemo : txn.memo = none)
    (fresh : ∀ r ∈ st.transactions, r.id ≠ i) :
    ∃ row, (update_transactions_table st now acct [txn]).finalState.transactions
        = st.transactions ++ [row] ∧ row.id = i ∧
      row.description = "" ∧ row.payee = "" ∧ row.memo = "" ∧
      (update_transactions_table st now acct [txn]).result = Except.ok 1 := by
  have hp : parseTxn txn = Except.ok
      ⟨i, pv == 1, amt, "", "", "", ta, txn.pending.getD false⟩ := by
    simp [parseTxn, hid, ham, hta, hpo, hdesc, hpay, hmemo]
  have heq := transactionsWork_singleton_fresh st now acct txn _ hp fresh
  exact ⟨newTxnRow now acct ⟨i, pv == 1, amt, "", "", "", ta, txn.pending.getD false⟩,
    by rw [heq], rfl, rfl, rfl, rfl, by rw [heq]⟩

/-- Witness for C8 at a concrete record with the three text fields absent. -/
theorem C8_field_defaulting_witness :
    ∃ row, (update_transactions_table ⟨[], [], []⟩ 7 "a1"
        [⟨some "t1", some 1, some 5, none, none, none, some 100, none⟩]
      ).finalState.transactions = [] ++ [row] ∧ row.id = "t1" ∧
      row.description = "" ∧ row.payee = "" ∧ row.memo = "" ∧
      (update_transactions_table ⟨[], [], []⟩ 7 "a1"
        [⟨some "t1", some 1, some 5, none, none, none, some 100, none⟩]).result
        = Except.ok 1 :=
  C8_field_defaulting ⟨[], [], []⟩ 7 "a1"
    ⟨some "t1", some 1, some 5, none, none, none, some 100, none⟩
    "t1" 1 5 100 rfl rfl rfl rfl rfl rfl rfl (by simp)

/-- C10: a transaction record that omits the optional pending field is
persisted with pending = false, with no error. -/
theorem C10_pending_default (st : DBState) (now : Int) (acct : String)
    (txn : TxnInput) (i : String) (pv amt ta : Int)
    (hid : txn.id = some i) (hpo : txn.posted = some pv)
    (ham : txn.amount = some amt) (hta : txn.transacted_at = some ta)
    (hpend : txn.pending = none)
    (fresh : ∀ r ∈ st.transactions, r.id ≠ i) :
    ∃ row, (update_transactions_table st now acct [txn]).finalState.transactions
        = st.transactions ++ [row] ∧ row.id = i ∧ row.pending = false ∧
      (update_transactions_table st now acct [txn]).result = Except.ok 1 := by
  have hp : parseTxn txn = Except.ok
      ⟨i, pv == 1, amt, txn.description.getD "", txn.payee.getD "",
       txn.memo.getD "", ta, false⟩ := by
    simp [parseTxn, hid, ham, hta, hpo, hpend]
  have heq := transactionsWork_singleton_fresh st now acct txn _ hp fresh
  exact ⟨newTxnRow now acct
      ⟨i, pv == 1, amt, txn.description.getD "", txn.payee.getD "",
       txn.memo.getD "", ta, false⟩,
    by rw [heq], rfl, rfl, by rw [heq]⟩

/-- Witness for C10 at a concrete record with the pending field absent. -/
theorem C10_pending_default_witness :
    ∃ row, (update_transactions_table ⟨[], [], []⟩ 7 "a1"
        [⟨some "t1", some 1, some 5, some "d", some "p", some "m", some 100, none⟩]
      ).finalState.transactions = [] ++ [row] ∧ row.id = "t1" ∧
      row.pending = false ∧
      (update_transactions_table ⟨[], [], []⟩ 7 "a1"
        [⟨some "t1", some 1, some 5, some "d", some "p", some "m", some 100, none⟩]
      ).result = Except.ok 1 :=
  C10_pending_default ⟨[], [], []⟩ 7 "a1"
    ⟨some "t1", some 1, some 5, some "d", some "p", some "m", some 100, none⟩
    "t1" 1 5 100 rfl rfl rfl rfl rfl (by simp)

/-! ### C6: all-or-nothing transaction batches -/

theorem foldl_txnStep_err (now : Int) (acct : String) :
    ∀ (txns : List TxnInput) (acc : List TransactionRow × Nat),
    (∃ t ∈ txns, ∃ e, parseTxn t = Except.error e) →
    ∃ e, List.foldlM (txnStep now acct) acc txns = Except.error e := by
  intro txns
  induction txns with
  | nil => intro acc h; simp at h
  | cons t ts ih =>
    intro acc h
    cases hp : parseTxn t with
    | error e =>
      have hstep : txnStep now acct acc t = Except.error e := by simp [txnStep, hp]
      exact ⟨e, by rw [List.foldlM_cons, hstep]; rfl⟩
    | ok p =>
      have hrest : ∃ t2 ∈ ts, ∃ e, parseTxn t2 = Except.error e := by
        obtain ⟨t2, ht2, e, he⟩ := h
        rcases List.mem_cons.mp ht2 with h1 | h1
        · subst h1; rw [hp] at he; cases he
        · exact ⟨t2, h1, e, he⟩
      obtain ⟨e, hfold⟩ := ih (txnUpsertRows now acct p acc.1, acc.2 + 1) hrest
      have hstep : txnStep now acct acc t
          = Except.ok (txnUpsertRows now acct p acc.1, acc.2 + 1) := by
        simp [txnStep, hp]
      exact ⟨e, by rw [List.foldlM_cons, hstep]; exact hfold⟩

/-- C6: if any record of a transaction batch fails to parse, the whole batch
unit of work ends in an error: the error is re-raised to the caller, the
database state is rolled back to the state before the batch (so none of the
records of the batch is persisted), and the trace rolls back. -/
theorem C6_batch_atomicity (st : DBState) (now : Int) (acct : String)
    (txns : List TxnInput)
    (h : ∃ t ∈ txns, ∃ e, parseTxn t = Except.error e) :
    ∃ e, (update_transactions_table st now acct txns).result = Except.error e ∧
      (update_transactions_table st now acct txns).finalState = st ∧
      ConnOp.rollback ∈ (update_transactions_table st now acct txns).trace := by
  obtain ⟨e, hfold⟩ := foldl_txnStep_err now acct txns (st.transactions, 0) h
  have hw : transactionsWorkRows now acct txns st.transactions = Except.error e := hfold
  exact ⟨e, by simp [update_transactions_table, get_db, transactionsWork, hw]⟩

/-- Witness for C6: a two-record batch whose second record lacks the posted
indicator persists neither record: the error is re-raised and the state is
rolled back. -/
theorem C6_batch_atomicity_witness :
    ∃ e, (update_transactions_table ⟨[], [], []⟩ 0 "a1"
        [⟨some "t1", some 1, some 5, none, none, none, some 100, none⟩,
         ⟨some "t2", none, some 6, none, none, none, some 101, none⟩]).result
        = Except.error e ∧
      (update_transactions_table ⟨[], [], []⟩ 0 "a1"
        [⟨some "t1", some 1, some 5, none, none, none, some 100, none⟩,
         ⟨some "t2", none, some 6, none, none, none, some 101, none⟩]).finalState
        = ⟨[], [], []⟩ ∧
      ConnOp.rollback ∈ (update_transactions_table ⟨[], [], []⟩ 0 "a1"
        [⟨some "t1", some 1, some 5, none, none, none, some 100, none⟩,
         ⟨some "t2", none, some 6, none, none, none, some 101, none⟩]).trace :=
  C6_batch_atomicity ⟨[], [], []⟩ 0 "a1" _
    ⟨⟨some "t2", none, some 6, none, none, none, some 101, none⟩, by simp,
     "KeyError: posted", rfl⟩

/-! ### C3: snapshot conflict key -/

/-- Conflict key of the `account_snapshots` table. -/
def snapKey (r : SnapshotRow) : String × Int := (r.account_id, r.balance_date)

theorem snap_rows_fresh_insert (now : Int) (aid : String) (b ab d : Int)
    (rows : List SnapshotRow) (hfresh : ∀ r ∈ rows, r.account_id ≠ aid) :
    snapshotsUpsertRows now aid b ab d rows = rows ++ [⟨aid, b, ab, d, now⟩] := by
  have hany : rows.any (fun r => r.account_id == aid && r.balance_date == d) = false := by
    rw [List.any_eq_false]
    intro r hr
    simp [hfresh r hr]
  simp [snapshotsUpsertRows, hany]

theorem snapshots_finalState (st : DBState) (now : Int) (aid : String) (b ab d : Int) :
    (update_account_snapshots_table st now aid b ab d).finalState
      = { st with snapshots := (snapshotsUpsertRows now aid b ab d st.snapshots) } := rfl

/-- C3: the snapshot upsert preserves uniqueness of the
(account id, balance-date) key; starting from a state with no snapshot row
for the account, upserting balance-date d1 and then a different d2 leaves
exactly two snapshot rows for the account, while upserting d1 twice leaves
exactly the single row carrying the values of the latest upsert. -/
theorem C3_snapshot_time_series (st : DBState) (now1 now2 : Int) (aid : String)
    (b1 ab1 b2 ab2 d1 d2 : Int) :
    (((st.snapshots.map snapKey).Nodup) →
      ((update_account_snapshots_table st now1 aid b1 ab1 d1).finalState.snapshots.map
        snapKey).Nodup) ∧
    ((∀ r ∈ st.snapshots, r.account_id ≠ aid) → d1 ≠ d2 →
      ((update_account_snapshots_table
          (update_account_snapshots_table st now1 aid b1 ab1 d1).finalState
          now2 aid b2 ab2 d2).finalState.snapshots.filter
        (fun r => r.account_id == aid)).length = 2) ∧
    ((∀ r ∈ st.snapshots, r.account_id ≠ aid) →
      (update_account_snapshots_table
          (update_account_snapshots_table st now1 aid b1 ab1 d1).finalState
          now2 aid b2 ab2 d1).finalState.snapshots.filter
        (fun r => r.account_id == aid) = [⟨aid, b2, ab2, d1, now2⟩]) := by
  refine ⟨?_, ?_, ?_⟩
  · intro hnd
    rw [snapshots_finalState]
    by_cases hany : st.snapshots.any
        (fun r => r.account_id == aid && r.balance_date == d1) = true
    · have hmap : (snapshotsUpsertRows now1 aid b1 ab1 d1 st.snapshots).map snapKey
          = st.snapshots.map snapKey := by
        rw [snapshotsUpsertRows, if_pos hany, List.map_map]
        apply List.map_congr_left
        intro r _
        by_cases hc : r.account_id = aid ∧ r.balance_date = d1 <;>
          simp [snapKey, hc]
      rw [hmap]
      exact hnd
    · rw [snapshotsUpsertRows, if_neg hany, List.map_append]
      have hnotin : (aid, d1) ∉ st.snapshots.map snapKey := by
        intro hmem
        obtain ⟨r, hr, hkey⟩ := List.mem_map.mp hmem
        apply hany
        rw [List.any_eq_true]
        refine ⟨r, hr, ?_⟩
        have h1 : r.account_id = aid := congrArg Prod.fst hkey
        have h2 : r.balance_date = d1 := congrArg Prod.snd hkey
        simp [h1, h2]
      exact List.Nodup.append hnd (List.nodup_singleton _)
        (by simpa [List.disjoint_singleton, snapKey] using hnotin)
  · intro hfresh hne
    rw [snapshots_finalState, snapshots_finalState]
    simp only
    rw [snap_rows_fresh_insert _ _ _ _ _ _ hfresh]
    have hfresh2 : ∀ r ∈ st.snapshots ++ [(⟨aid, b1, ab1, d1, now1⟩ : SnapshotRow)],
        ¬(r.account_id == aid && r.balance_date == d2) = true := by
      intro r hr
      rcases List.mem_append.mp hr with h1 | h1
      · simp [hfresh r h1]
      · rcases List.mem_singleton.mp h1 with rfl
        simp [hne]
    have hany2 : (st.snapshots ++ [(⟨aid, b1, ab1, d1, now1⟩ : SnapshotRow)]).any
        (fun r => r.account_id == aid && r.balance_date == d2) = false :=
      List.any_eq_false.mpr hfresh2
    rw [snapshotsUpsertRows, if_neg (by rw [hany2]; exact Bool.false_ne_true)]
    have hnil : st.snapshots.filter (fun r => r.account_id == aid) = [] := by
      rw [List.filter_eq_nil_iff]
      intro r hr
      simp [hfresh r hr]
    simp [List.filter_append, hnil]
  · intro hfresh
    rw [snapshots_finalState, snapshots_finalState]
    simp only
    rw [snap_rows_fresh_insert _ _ _ _ _ _ hfresh]
    have hany2 : (st.snapshots ++ [(⟨aid, b1, ab1, d1, now1⟩ : SnapshotRow)]).any
        (fun r => r.account_id == aid && r.balance_date == d1) = true := by
      rw [List.any_eq_true]
      exact ⟨⟨aid, b1, ab1, d1, now1⟩, List.mem_append_right _ (List.mem_singleton_self _),
        by simp⟩
    rw [snapshotsUpsertRows, if_pos hany2, List.map_append]
    have hmapid : st.snapshots.map (fun r =>
        if r.account_id == aid && r.balance_date == d1 then
          { r with balance := b2, available_balance := ab2, snapshot_taken_at := now2 }
        else r) = st.snapshots := by
      refine (List.map_congr_left ?_).trans (List.map_id _)
      intro r hr
      simp [hfresh r hr]
    have hnil : st.snapshots.filter (fun r => r.account_id == aid) = [] := by
      rw [List.filter_eq_nil_iff]
      intro r hr
      simp [hfresh r hr]
    rw [hmapid]
    simp [List.filter_append, hnil]

/-- Witness for C3 from the empty database: dates 0 then 1 give two snapshot
rows, dates 0 then 0 give the single latest row. -/
theorem C3_snapshot_time_series_witness :
    ((update_account_snapshots_table ⟨[], [], []⟩ 5 "a1" 10 11 0
      ).finalState.snapshots.map snapKey).Nodup ∧
    ((update_account_snapshots_table
        (update_account_snapshots_table ⟨[], [], []⟩ 5 "a1" 10 11 0).finalState
        6 "a1" 12 13 1).finalState.snapshots.filter
      (fun r => r.account_id == "a1")).length = 2 ∧
    (update_account_snapshots_table
        (update_account_snapshots_table ⟨[], [], []⟩ 5 "a1" 10 11 0).finalState
        6 "a1" 12 13 0).finalState.snapshots.filter
      (fun r => r.account_id == "a1") = [⟨"a1", 12, 13, 0, 6⟩] := by
  have h := C3_snapshot_time_series ⟨[], [], []⟩ 5 6 "a1" 10 11 12 13 0 1
  exact ⟨h.1 (by simp), h.2.1 (by simp) (by decide), h.2.2 (by simp)⟩

/-! ### C5: the read query -/

/-- C5: the query layer returns, without error, a list that is sorted by
transacted-at descending, is a permutation of the join relation, and whose
members are exactly the flat records (account name, amount, description,
payee, memo, transacted-at, pending) built from a stored transaction whose
transacted-at date falls on the calendar day before the current date,
joined with the account row owning it. -/
theorem C5_query_layer (st : DBState) (today : Int) :
    ∃ l, (get_todays_transactions st today).result = Except.ok l ∧
      List.Sorted (fun v1 v2 : TxnView => v2.transacted_at ≤ v1.transacted_at) l ∧
      l.Perm (joinedRows st today) ∧
      (∀ v : TxnView, v ∈ l ↔ ∃ t ∈ st.transactions, ∃ a ∈ st.accounts,
        t.account_id = a.id ∧ dateOf t.transacted_at = today - 1 ∧
        v = ⟨a.name, t.amount, t.description, t.payee, t.memo,
             t.transacted_at, t.pending⟩) := by
  refine ⟨(joinedRows st today).mergeSort
      (fun v1 v2 => v2.transacted_at ≤ v1.transacted_at), rfl, ?_, ?_, ?_⟩
  · have h := @List.sorted_mergeSort TxnView
      (fun v1 v2 : TxnView => decide (v2.transacted_at ≤ v1.transacted_at))
      (fun a b c hab hbc => by
        simp only [decide_eq_true_eq] at *
        exact le_trans hbc hab)
      (fun a b => by
        simp only [Bool.or_eq_true, decide_eq_true_eq]
        exact Int.le_total _ _)
      (joinedRows st today)
    exact h.imp (fun hab => of_decide_eq_true hab)
  · exact List.mergeSort_perm _ _
  · intro v
    rw [(List.mergeSort_perm (joinedRows st today) _).mem_iff]
    simp only [joinedRows, List.mem_flatMap, List.mem_filter, List.mem_map,
      mkView, beq_iff_eq]
    constructor
    · rintro ⟨t, ⟨ht, hdate⟩, a, ⟨ha, hacc⟩, rfl⟩
      exact ⟨t, ht, a, ha, hacc, hdate, rfl⟩
    · rintro ⟨t, ht, a, ha, hacc, hdate, rfl⟩
      exact ⟨t, ⟨ht, hdate⟩, a, ⟨ha, hacc⟩, rfl⟩

/-! ### Idempotence lemmas for the row-level upserts -/

theorem accountsUpsertRows_idem (now : Int) (i nm c : String) (b ab bd : Int)
    (rows : List AccountRow) :
    accountsUpsertRows now i nm c b ab bd (accountsUpsertRows now i nm c b ab bd rows)
      = accountsUpsertRows now i nm c b ab bd rows := by
  by_cases h : rows.any (fun r => r.id == i) = true
  · have hinner : accountsUpsertRows now i nm c b ab bd rows
        = rows.map (fun r =>
            if r.id == i then
              { r with name := nm, balance := b, available_balance := ab,
                       balance_date := bd, updated_at := now }
            else r) := by
      rw [accountsUpsertRows, if_pos h]
    obtain ⟨r0, hr0, hid0⟩ := (any_id_accounts rows i).mp h
    have hany2 : (accountsUpsertRows now i nm c b ab bd rows).any
        (fun r => r.id == i) = true := by
      rw [hinner, List.any_eq_true]
      refine ⟨_, List.mem_map_of_mem _ hr0, ?_⟩
      by_cases hc : r0.id = i <;> simp [hc, hid0]
    rw [accountsUpsertRows, if_pos hany2, hinner, List.map_map]
    apply List.map_congr_left
    intro r _
    by_cases hc : r.id = i
    · simp [Function.comp, hc]
    · simp [Function.comp, hc]
  · have hinner : accountsUpsertRows now i nm c b ab bd rows
        = rows ++ [⟨i, nm, c, b, ab, bd, now⟩] := by
      rw [accountsUpsertRows, if_neg h]
    have hany2 : (accountsUpsertRows now i nm c b ab bd rows).any
        (fun r => r.id == i) = true := by
      rw [hinner, List.any_eq_true]
      exact ⟨⟨i, nm, c, b, ab, bd, now⟩,
        List.mem_append_right _ (List.mem_singleton_self _), by simp⟩
    rw [accountsUpsertRows, if_pos hany2, hinner, List.map_append]
    have hfalse := List.any_eq_false.mp (Bool.eq_false_iff.mpr h)
    have hmapid : rows.map (fun r =>
        if r.id == i then
          { r with name := nm, balance := b, available_balance := ab,
                   balance_date := bd, updated_at := now }
        else r) = rows := by
      refine (List.map_congr_left ?_).trans (List.map_id _)
      intro r hr
      simp [hfalse r hr]
    rw [hmapid]
    simp

theorem snapshotsUpsertRows_idem (now : Int) (aid : String) (b ab d : Int)
    (rows : List SnapshotRow) :
    snapshotsUpsertRows now aid b ab d (snapshotsUpsertRows now aid b ab d rows)
      = snapshotsUpsertRows now aid b ab d rows := by
  by_cases h : rows.any (fun r => r.account_id == aid && r.balance_date == d) = true
  · have hinner : snapshotsUpsertRows now aid b ab d rows
        = rows.map (fun r =>
            if r.account_id == aid && r.balance_date == d then
              { r with balance := b, available_balance := ab, snapshot_taken_at := now }
            else r) := by
      rw [snapshotsUpsertRows, if_pos h]
    obtain ⟨r0, hr0, hid0⟩ := List.any_eq_true.mp h
    have hany2 : (snapshotsUpsertRows now aid b ab d rows).any
        (fun r => r.account_id == aid && r.balance_date == d) = true := by
      rw [hinner, List.any_eq_true]
      refine ⟨_, List.mem_map_of_mem _ hr0, ?_⟩
      rw [if_pos hid0]
      simpa using hid0
    rw [snapshotsUpsertRows, if_pos hany2, hinner, List.map_map]
    apply List.map_congr_left
    intro r _
    by_cases hc : r.account_id = aid ∧ r.balance_date = d
    · simp [Function.comp, hc.1, hc.2]
    · have hcf : (r.account_id == aid && r.balance_date == d) = false :=
        Bool.eq_false_iff.mpr (fun hb => hc (by simpa using hb))
      simp [Function.comp, hcf]
  · have hinner : snapshotsUpsertRows now aid b ab d rows
        = rows ++ [⟨aid, b, ab, d, now⟩] := by
      rw [snapshotsUpsertRows, if_neg h]
    have hany2 : (snapshotsUpsertRows now aid b ab d rows).any
        (fun r => r.account_id == aid && r.balance_date == d) = true := by
      rw [hinner, List.any_eq_true]
      exact ⟨⟨aid, b, ab, d, now⟩,
        List.mem_append_right _ (List.mem_singleton_self _), by simp⟩
    rw [snapshotsUpsertRows, if_pos hany2, hinner, List.map_append]
    have hfalse := List.any_eq_false.mp (Bool.eq_false_iff.mpr h)
    have hmapid : rows.map (fun r =>
        if r.account_id == aid && r.balance_date == d then
          { r with balance := b, available_balance := ab, snapshot_taken_at := now }
        else r) = rows := by
      refine (List.map_congr_left ?_).trans (List.map_id _)
      intro r hr
      rw [if_neg (hfalse r hr)]
      rfl
    rw [hmapid]
    simp

/-! ### Transaction-batch fold lemmas -/

theorem txnUpsertRows_has_self (now : Int) (acct : String) (p : ParsedTxn)
    (rows : List TransactionRow) :
    hasTxnId (txnUpsertRows now acct p rows) p.id := by
  by_cases h : rows.any (fun r => r.id == p.id) = true
  · obtain ⟨r, hr, hid⟩ := (any_id_txns rows p.id).mp h
    rw [txnUpsertRows, if_pos h]
    refine ⟨_, List.mem_map_of_mem _ hr, ?_⟩
    simp [hid]
  · rw [txnUpsertRows, if_neg h]
    exact ⟨newTxnRow now acct p, List.mem_append_right _ (List.mem_singleton_self _), rfl⟩

theorem txnUpsertRows_has_mono (now : Int) (acct : String) (p : ParsedTxn)
    (rows : List TransactionRow) (i : String) (h : hasTxnId rows i) :
    hasTxnId (txnUpsertRows now acct p rows) i := by
  obtain ⟨r, hr, hid⟩ := h
  by_cases hany : rows.any (fun r => r.id == p.id) = true
  · rw [txnUpsertRows, if_pos hany]
    refine ⟨_, List.mem_map_of_mem _ hr, ?_⟩
    by_cases hc : r.id = p.id
    · rw [if_pos (show (r.id == p.id) = true by simp [hc])]
      exact hid
    · rw [if_neg (show ¬(r.id == p.id) = true by simp [hc])]
      exact hid
  · rw [txnUpsertRows, if_neg hany]
    exact ⟨r, List.mem_append_left _ hr, hid⟩

theorem txnUpsertRows_length_of_has (now : Int) (acct : String) (p : ParsedTxn)
    (rows : List TransactionRow) (h : hasTxnId rows p.id) :
    (txnUpsertRows now acct p rows).length = rows.length := by
  rw [txnUpsertRows, if_pos ((any_id_txns rows p.id).mpr h), List.length_map]

theorem foldl_txnStep_ok_mono (now : Int) (acct : String) (i : String) :
    ∀ (txns : List TxnInput) (acc out : List TransactionRow × Nat),
    List.foldlM (txnStep now acct) acc txns = Except.ok out →
    hasTxnId acc.1 i → hasTxnId out.1 i := by
  intro txns
  induction txns with
  | nil =>
    intro acc out hfold hacc
    rw [List.foldlM_nil] at hfold
    cases hfold
    exact hacc
  | cons t ts ih =>
    intro acc out hfold hacc
    cases hp : parseTxn t with
    | error e =>
      have hstep : txnStep now acct acc t = Except.error e := by simp [txnStep, hp]
      rw [List.foldlM_cons, hstep] at hfold
      cases hfold
    | ok p =>
      have hstep : txnStep now acct acc t
          = Except.ok (txnUpsertRows now acct p acc.1, acc.2 + 1) := by
        simp [txnStep, hp]
      rw [List.foldlM_cons, hstep] at hfold
      exact ih _ out hfold (txnUpsertRows_has_mono now acct p acc.1 i hacc)

theorem foldl_txnStep_has_all (now : Int) (acct : String) :
    ∀ (txns : List TxnInput) (acc out : List TransactionRow × Nat),
    List.foldlM (txnStep now acct) acc txns = Except.ok out →
    ∀ t ∈ txns, ∀ p, parseTxn t = Except.ok p → hasTxnId out.1 p.id := by
  intro txns
  induction txns with
  | nil =>
    intro acc out _ t ht
    simp at ht
  | cons t0 ts ih =>
    intro acc out hfold t ht p hp
    cases hp0 : parseTxn t0 with
    | error e =>
      have hstep : txnStep now acct acc t0 = Except.error e := by simp [txnStep, hp0]
      rw [List.foldlM_cons, hstep] at hfold
      cases hfold
    | ok p0 =>
      have hstep : txnStep now acct acc t0
          = Except.ok (txnUpsertRows now acct p0 acc.1, acc.2 + 1) := by
        simp [txnStep, hp0]
      rw [List.foldlM_cons, hstep] at hfold
      rcases List.mem_cons.mp ht with h1 | h1
      · subst h1
        have hpq : p0 = p := Except.ok.inj (hp0.symm.trans hp)
        rw [← hpq]
        exact foldl_txnStep_ok_mono now acct (ParsedTxn.id p0) ts _ out hfold
          (txnUpsertRows_has_self now acct p0 acc.1)
      · exact ih _ out hfold t h1 p hp

theorem foldl_txnStep_length (now : Int) (acct : String) :
    ∀ (txns : List TxnInput) (acc out : List TransactionRow × Nat),
    List.foldlM (txnStep now acct) acc txns = Except.ok out →
    (∀ t ∈ txns, ∀ p, parseTxn t = Except.ok p → hasTxnId acc.1 p.id) →
    out.1.length = acc.1.length := by
  intro txns
  induction txns with
  | nil =>
    intro acc out hfold _
    rw [List.foldlM_nil] at hfold
    cases hfold
    rfl
  | cons t0 ts ih =>
    intro acc out hfold hpres
    cases hp0 : parseTxn t0 with
    | error e =>
      have hstep : txnStep now acct acc t0 = Except.error e := by simp [txnStep, hp0]
      rw [List.foldlM_cons, hstep] at hfold
      cases hfold
    | ok p0 =>
      have hstep : txnStep now acct acc t0
          = Except.ok (txnUpsertRows now acct p0 acc.1, acc.2 + 1) := by
        simp [txnStep, hp0]
      rw [List.foldlM_cons, hstep] at hfold
      have hlen0 : (txnUpsertRows now acct p0 acc.1).length = acc.1.length :=
        txnUpsertRows_length_of_has now acct p0 acc.1
          (hpres t0 (List.mem_cons_self _ _) p0 hp0)
      have hpres2 : ∀ t ∈ ts, ∀ p, parseTxn t = Except.ok p →
          hasTxnId (txnUpsertRows now acct p0 acc.1) p.id := by
        intro t ht p hp
        exact txnUpsertRows_has_mono now acct p0 acc.1 p.id
          (hpres t (List.mem_cons_of_mem _ ht) p hp)
      have := ih (txnUpsertRows now acct p0 acc.1, acc.2 + 1) out hfold hpres2
      rw [this]
      exact hlen0

theorem foldl_txnStep_all_parse (now : Int) (acct : String) :
    ∀ (txns : List TxnInput) (acc out : List TransactionRow × Nat),
    List.foldlM (txnStep now acct) acc txns = Except.ok out →
    ∀ t ∈ txns, parses t := by
  intro txns
  induction txns with
  | nil =>
    intro acc out _ t ht
    simp at ht
  | cons t0 ts ih =>
    intro acc out hfold t ht
    cases hp0 : parseTxn t0 with
    | error e =>
      have hstep : txnStep now acct acc t0 = Except.error e := by simp [txnStep, hp0]
      rw [List.foldlM_cons, hstep] at hfold
      cases hfold
    | ok p0 =>
      have hstep : txnStep now acct acc t0
          = Except.ok (txnUpsertRows now acct p0 acc.1, acc.2 + 1) := by
        simp [txnStep, hp0]
      rw [List.foldlM_cons, hstep] at hfold
      rcases List.mem_cons.mp ht with h1 | h1
      · subst h1
        exact ⟨p0, hp0⟩
      · exact ih _ out hfold t h1

theorem foldl_txnStep_ok_of_parses (now : Int) (acct : String) :
    ∀ (txns : List TxnInput) (acc : List TransactionRow × Nat),
    (∀ t ∈ txns, parses t) →
    ∃ out, List.foldlM (txnStep now acct) acc txns = Except.ok out := by
  intro txns
  induction txns with
  | nil =>
    intro acc _
    exact ⟨acc, by rw [List.foldlM_nil]; rfl⟩
  | cons t0 ts ih =>
    intro acc hall
    obtain ⟨p0, hp0⟩ := hall t0 (List.mem_cons_self _ _)
    have hstep : txnStep now acct acc t0
        = Except.ok (txnUpsertRows now acct p0 acc.1, acc.2 + 1) := by
      simp [txnStep, hp0]
    obtain ⟨out, hout⟩ := ih (txnUpsertRows now acct p0 acc.1, acc.2 + 1)
      (fun t ht => hall t (List.mem_cons_of_mem _ ht))
    exact ⟨out, by rw [List.foldlM_cons, hstep]; exact hout⟩

/-! ### C1: idempotence of the per-account sync -/

theorem sync_account_cases (st : DBState) (now : Int) (a : AccountPayload) :
    (sync_account_from_api st now a).1.accounts
        = accountsUpsertRows now a.id a.name a.currency a.balance
            a.available_balance a.balance_date st.accounts ∧
    (sync_account_from_api st now a).1.snapshots
        = snapshotsUpsertRows now a.id a.balance a.available_balance
            a.balance_date st.snapshots ∧
    ((a.transactions.isEmpty = true ∧
        (sync_account_from_api st now a).1.transactions = st.transactions ∧
        (sync_account_from_api st now a).2 = Except.ok ()) ∨
     (a.transactions.isEmpty = false ∧ ∃ rows n,
        transactionsWorkRows now a.id a.transactions st.transactions
            = Except.ok (rows, n) ∧
        (sync_account_from_api st now a).1.transactions = rows ∧
        (sync_account_from_api st now a).2 = Except.ok ()) ∨
     (a.transactions.isEmpty = false ∧ ∃ e,
        transactionsWorkRows now a.id a.transactions st.transactions
            = Except.error e ∧
        (sync_account_from_api st now a).1.transactions = st.transactions ∧
        (sync_account_from_api st now a).2 = Except.error e)) := by
  by_cases he : a.transactions.isEmpty = true
  · have hsync : sync_account_from_api st now a
        = (⟨accountsUpsertRows now a.id a.name a.currency a.balance
              a.available_balance a.balance_date st.accounts,
            snapshotsUpsertRows now a.id a.balance a.available_balance
              a.balance_date st.snapshots,
            st.transactions⟩, Except.ok ()) := by
      simp [sync_account_from_api, update_accounts_table,
            update_account_snapshots_table, get_db, accountsUpsert,
            snapshotsUpsert, he]
    rw [hsync]
    exact ⟨rfl, rfl, Or.inl ⟨he, rfl, rfl⟩⟩
  · have he2 : a.transactions.isEmpty = false := Bool.eq_false_iff.mpr he
    cases hw : transactionsWorkRows now a.id a.transactions st.transactions with
    | ok v =>
      obtain ⟨rows, n⟩ := v
      have hsync : sync_account_from_api st now a
          = (⟨accountsUpsertRows now a.id a.name a.currency a.balance
                a.available_balance a.balance_date st.accounts,
              snapshotsUpsertRows now a.id a.balance a.available_balance
                a.balance_date st.snapshots,
              rows⟩, Except.ok ()) := by
        simp [sync_account_from_api, update_accounts_table,
              update_account_snapshots_table, update_transactions_table,
              transactionsWork, get_db, accountsUpsert, snapshotsUpsert, he2, hw]
      rw [hsync]
      exact ⟨rfl, rfl, Or.inr (Or.inl ⟨he2, rows, n, rfl, rfl, rfl⟩)⟩
    | error e =>
      have hsync : sync_account_from_api st now a
          = (⟨accountsUpsertRows now a.id a.name a.currency a.balance
                a.available_balance a.balance_date st.accounts,
              snapshotsUpsertRows now a.id a.balance a.available_balance
                a.balance_date st.snapshots,
              st.transactions⟩, Except.error e) := by
        simp [sync_account_from_api, update_accounts_table,
              update_account_snapshots_table, update_transactions_table,
              transactionsWork, get_db, accountsUpsert, snapshotsUpsert, he2, hw]
      rw [hsync]
      exact ⟨rfl, rfl, Or.inr (Or.inr ⟨he2, e, rfl, rfl, rfl⟩)⟩

/-- C1: applying the full per-account sync (account upsert, snapshot upsert,
transaction batch upsert) a second time with the same payload leaves the
accounts table and the snapshots table exactly as after the first
application, and leaves the number of transaction rows unchanged (no
duplicates keyed by external id). -/
theorem C1_sync_idempotent (st : DBState) (now : Int) (a : AccountPayload) :
    (sync_account_from_api (sync_account_from_api st now a).1 now a).1.accounts
        = (sync_account_from_api st now a).1.accounts ∧
    (sync_account_from_api (sync_account_from_api st now a).1 now a).1.snapshots
        = (sync_account_from_api st now a).1.snapshots ∧
    (sync_account_from_api (sync_account_from_api st now a).1 now a).1.transactions.length
        = (sync_account_from_api st now a).1.transactions.length := by
  obtain ⟨hA1, hS1, hT1⟩ := sync_account_cases st now a
  obtain ⟨hA2, hS2, hT2⟩ := sync_account_cases (sync_account_from_api st now a).1 now a
  refine ⟨?_, ?_, ?_⟩
  · rw [hA2, hA1, accountsUpsertRows_idem]
  · rw [hS2, hS1, snapshotsUpsertRows_idem]
  · rcases hT1 with ⟨he, hT, _⟩ | ⟨he, rows, n, hw, hT, _⟩ | ⟨he, e, hw, hT, _⟩
    · rcases hT2 with ⟨_, hT2e, _⟩ | ⟨he2, _⟩ | ⟨he2, _⟩
      · rw [hT2e]
      · rw [he] at he2; cases he2
      · rw [he] at he2; cases he2
    · rcases hT2 with ⟨he2, _⟩ | ⟨_, rows2, n2, hw2, hT2e, _⟩ | ⟨_, e2, hw2, hT2e, _⟩
      · rw [he] at he2; cases he2
      · rw [hT2e, hT]
        have hpres : ∀ t ∈ a.transactions, ∀ p, parseTxn t = Except.ok p →
            hasTxnId rows p.id := by
          intro t ht p hp
          exact foldl_txnStep_has_all now a.id a.transactions
            (st.transactions, 0) (rows, n) hw t ht p hp
        rw [hT] at hw2
        exact foldl_txnStep_length now a.id a.transactions (rows, 0)
          (rows2, n2) hw2 hpres
      · rw [hT] at hw2
        have hall : ∀ t ∈ a.transactions, parses t :=
          foldl_txnStep_all_parse now a.id a.transactions
            (st.transactions, 0) (rows, n) hw
        obtain ⟨out, hout⟩ := foldl_txnStep_ok_of_parses now a.id
          a.transactions (rows, 0) hall
        have : Except.ok out = Except.error e2 := hout.symm.trans hw2
        cases this
    · rcases hT2 with ⟨he2, _⟩ | ⟨_, rows2, n2, hw2, hT2e, _⟩ | ⟨_, e2, hw2, hT2e, _⟩
      · rw [he] at he2; cases he2
      · rw [hT] at hw2
        have : Except.error e = Except.ok (rows2, n2) := hw.symm.trans hw2
        cases this
      · rw [hT2e, hT]

/-! ### C7: behaviour of the multi-account sync loop -/

theorem accountsUpsertRows_has_self (now : Int) (i nm c : String) (b ab bd : Int)
    (rows : List AccountRow) :
    hasAccountId (accountsUpsertRows now i nm c b ab bd rows) i := by
  by_cases h : rows.any (fun r => r.id == i) = true
  · obtain ⟨r, hr, hid⟩ := (any_id_accounts rows i).mp h
    rw [accountsUpsertRows, if_pos h]
    refine ⟨_, List.mem_map_of_mem _ hr, ?_⟩
    simp [hid]
  · rw [accountsUpsertRows, if_neg h]
    exact ⟨⟨i, nm, c, b, ab, bd, now⟩,
      List.mem_append_right _ (List.mem_singleton_self _), rfl⟩

theorem accountsUpsertRows_has_mono (now : Int) (i nm c : String) (b ab bd : Int)
    (rows : List AccountRow) (j : String) (h : hasAccountId rows j) :
    hasAccountId (accountsUpsertRows now i nm c b ab bd rows) j := by
  obtain ⟨r, hr, hid⟩ := h
  by_cases hany : rows.any (fun r => r.id == i) = true
  · rw [accountsUpsertRows, if_pos hany]
    refine ⟨_, List.mem_map_of_mem _ hr, ?_⟩
    by_cases hc : r.id = i
    · rw [if_pos (show (r.id == i) = true by simp [hc])]
      exact hid
    · rw [if_neg (show ¬(r.id == i) = true by simp [hc])]
      exact hid
  · rw [accountsUpsertRows, if_neg hany]
    exact ⟨r, List.mem_append_left _ hr, hid⟩

theorem sync_account_has_self (st : DBState) (now : Int) (a : AccountPayload) :
    hasAccountId (sync_account_from_api st now a).1.accounts a.id := by
  rw [(sync_account_cases st now a).1]
  exact accountsUpsertRows_has_self now a.id a.name a.currency a.balance
    a.available_balance a.balance_date st.accounts

theorem sync_account_has_mono (st : DBState) (now : Int) (a : AccountPayload)
    (j : String) (h : hasAccountId st.accounts j) :
    hasAccountId (sync_account_from_api st now a).1.accounts j := by
  rw [(sync_account_cases st now a).1]
  exact accountsUpsertRows_has_mono now a.id a.name a.currency a.balance
    a.available_balance a.balance_date st.accounts j h

theorem sync_account_ok_of_accountOk (st : DBState) (now : Int)
    (a : AccountPayload) (h : accountOk a) :
    (sync_account_from_api st now a).2 = Except.ok () := by
  rcases (sync_account_cases st now a).2.2 with ⟨_, _, hres⟩ |
    ⟨_, rows, n, _, _, hres⟩ | ⟨_, e, hw, _, _⟩
  · exact hres
  · exact hres
  · exfalso
    obtain ⟨out, hout⟩ := foldl_txnStep_ok_of_parses now a.id a.transactions
      (st.transactions, 0) h
    exact absurd (hout.symm.trans hw) (by simp)

theorem sync_account_err_of_bad (st : DBState) (now : Int)
    (a : AccountPayload) (h : ¬ accountOk a) :
    ∃ e, (sync_account_from_api st now a).2 = Except.error e := by
  rcases (sync_account_cases st now a).2.2 with ⟨he, _, _⟩ |
    ⟨_, rows, n, hw, _, _⟩ | ⟨_, e, _, _, hres⟩
  · exfalso
    apply h
    intro t ht
    rw [List.isEmpty_iff.mp he] at ht
    simp at ht
  · exfalso
    exact h (foldl_txnStep_all_parse now a.id a.transactions
      (st.transactions, 0) (rows, n) hw)
  · exact ⟨e, hres⟩

theorem sync_all_append_ok (st : DBState) (now : Int) :
    ∀ (xs : List AccountPayload) (ys : List AccountPayload) (st1 : DBState),
    sync_all_accounts st now xs = (st1, Except.ok ()) →
    sync_all_accounts st now (xs ++ ys) = sync_all_accounts st1 now ys := by
  intro xs
  induction xs generalizing st with
  | nil =>
    intro ys st1 h
    rw [sync_all_accounts] at h
    cases h
    rfl
  | cons a xs ih =>
    intro ys st1 h
    rw [List.cons_append]
    rw [sync_all_accounts] at h ⊢
    cases hres : sync_account_from_api st now a with
    | mk stx r =>
      rw [hres] at h
      cases r with
      | ok u => exact ih stx ys st1 h
      | error e => cases h

theorem sync_all_has_mono (now : Int) (j : String) :
    ∀ (ps : List AccountPayload) (st : DBState),
    hasAccountId st.accounts j →
    hasAccountId (sync_all_accounts st now ps).1.accounts j := by
  intro ps
  induction ps with
  | nil =>
    intro st h
    exact h
  | cons a ps ih =>
    intro st h
    rw [sync_all_accounts]
    cases hres : sync_account_from_api st now a with
    | mk stx r =>
      have hstx : hasAccountId stx.accounts j := by
        have := sync_account_has_mono st now a j h
        rw [hres] at this
        exact this
      cases r with
      | ok u => exact ih stx hstx
      | error e => exact hstx

theorem sync_all_has_each (now : Int) :
    ∀ (ps : List AccountPayload) (st : DBState),
    (∀ a ∈ ps, accountOk a) →
    ∀ a ∈ ps, hasAccountId (sync_all_accounts st now ps).1.accounts a.id := by
  intro ps
  induction ps with
  | nil =>
    intro st _ a ha
    simp at ha
  | cons b ps ih =>
    intro st hall a ha
    rw [sync_all_accounts]
    cases hres : sync_account_from_api st now b with
    | mk stx r =>
      have hok : r = Except.ok () := by
        have := sync_account_ok_of_accountOk st now b
          (hall b (List.mem_cons_self _ _))
        rw [hres] at this
        exact this
      subst hok
      rcases List.mem_cons.mp ha with h1 | h1
      · subst h1
        apply sync_all_has_mono now a.id ps stx
        have := sync_account_has_self st now a
        rw [hres] at this
        exact this
      · exact ih stx (fun x hx => hall x (List.mem_cons_of_mem _ hx)) a h1

theorem sync_all_ok_of_all (now : Int) :
    ∀ (ps : List AccountPayload) (st : DBState),
    (∀ a ∈ ps, accountOk a) →
    ∃ st1, sync_all_accounts st now ps = (st1, Except.ok ()) := by
  intro ps
  induction ps with
  | nil =>
    intro st _
    exact ⟨st, rfl⟩
  | cons a ps ih =>
    intro st hall
    rw [sync_all_accounts]
    cases hres : sync_account_from_api st now a with
    | mk stx r =>
      have hok : r = Except.ok () := by
        have := sync_account_ok_of_accountOk st now a
          (hall a (List.mem_cons_self _ _))
        rw [hres] at this
        exact this
      subst hok
      exact ih stx (fun x hx => hall x (List.mem_cons_of_mem _ hx))

/-- C7 is refuted as stated: syncing a run in which a failing account (bad
transaction record) precedes a healthy account aborts the loop, so the
healthy account `A` is never upserted at all. -/
theorem C7_counterexample :
    (sync_all_accounts ⟨[], [], []⟩ 0
        [⟨"B", "Save", "USD", 1, 1, 10,
            [⟨some "t2", none, some 6, none, none, none, some 101, none⟩]⟩,
         ⟨"A", "Check", "USD", 1, 1, 10, []⟩]).2
        = Except.error "KeyError: posted" ∧
    ¬ ∃ r ∈ (sync_all_accounts ⟨[], [], []⟩ 0
        [⟨"B", "Save", "USD", 1, 1, 10,
            [⟨some "t2", none, some 6, none, none, none, some 101, none⟩]⟩,
         ⟨"A", "Check", "USD", 1, 1, 10, []⟩]).1.accounts, r.id = "A" := by
  constructor
  · rfl
  · decide

/-- C7 (amended): in a multi-account sync run, accounts processed before the
failing account still commit (their account rows are present at the end),
and the failure is re-raised; but because the loop has no exception handler
the run stops at the failing account, so the accounts after it are never
processed — the run over `pre ++ b :: post` equals the run over
`pre ++ [b]`, whatever `post` contains. -/
theorem C7_failure_stops_run (st : DBState) (now : Int)
    (pre : List AccountPayload) (b : AccountPayload) (post : List AccountPayload)
    (hpre : ∀ a ∈ pre, accountOk a) (hb : ¬ accountOk b) :
    (∃ e, (sync_all_accounts st now (pre ++ b :: post)).2 = Except.error e) ∧
    sync_all_accounts st now (pre ++ b :: post)
        = sync_all_accounts st now (pre ++ [b]) ∧
    (∀ a ∈ pre, ∃ r ∈ (sync_all_accounts st now (pre ++ b :: post)).1.accounts,
      r.id = a.id) := by
  obtain ⟨st1, h1⟩ := sync_all_ok_of_all now pre st hpre
  obtain ⟨e, he⟩ := sync_account_err_of_bad st1 now b hb
  cases hres : sync_account_from_api st1 now b with
  | mk stx r =>
    have hr : r = Except.error e := by
      rw [hres] at he
      exact he
    subst hr
    have hrun : sync_all_accounts st now (pre ++ b :: post)
        = (stx, Except.error e) := by
      rw [sync_all_append_ok st now pre (b :: post) st1 h1, sync_all_accounts, hres]
    have hrun1 : sync_all_accounts st now (pre ++ [b])
        = (stx, Except.error e) := by
      rw [sync_all_append_ok st now pre [b] st1 h1, sync_all_accounts, hres]
    refine ⟨⟨e, by rw [hrun]⟩, by rw [hrun, hrun1], ?_⟩
    intro a ha
    rw [hrun]
    have hpast : hasAccountId st1.accounts a.id := by
      have := sync_all_has_each now pre st hpre a ha
      rw [h1] at this
      exact this
    have hstx : hasAccountId stx.accounts a.id := by
      have := sync_account_has_mono st1 now b a.id hpast
      rw [hres] at this
      exact this
    exact hstx

/-- Witness for C7 (amended): a healthy account before the failing account
commits, and the run ignores the account after the failure. -/
theorem C7_failure_stops_run_witness :
    (∃ e, (sync_all_accounts ⟨[], [], []⟩ 0
        ([⟨"A", "Check", "USD", 1, 1, 10, []⟩] ++
          (⟨"B", "Save", "USD", 1, 1, 10,
              [⟨some "t2", none, some 6, none, none, none, some 101, none⟩]⟩ : AccountPayload) ::
            [⟨"C", "Extra", "USD", 1, 1, 10, []⟩])).2 = Except.error e) ∧
    sync_all_accounts ⟨[], [], []⟩ 0
        ([⟨"A", "Check", "USD", 1, 1, 10, []⟩] ++
          (⟨"B", "Save", "USD", 1, 1, 10,
              [⟨some "t2", none, some 6, none, none, none, some 101, none⟩]⟩ : AccountPayload) ::
            [⟨"C", "Extra", "USD", 1, 1, 10, []⟩])
        = sync_all_accounts ⟨[], [], []⟩ 0
        ([⟨"A", "Check", "USD", 1, 1, 10, []⟩] ++
          [⟨"B", "Save", "USD", 1, 1, 10,
              [⟨some "t2", none, some 6, none, none, none, some 101, none⟩]⟩]) ∧
    (∀ a ∈ ([⟨"A", "Check", "USD", 1, 1, 10, []⟩] : List AccountPayload),
      ∃ r ∈ (sync_all_accounts ⟨[], [], []⟩ 0
        ([⟨"A", "Check", "USD", 1, 1, 10, []⟩] ++
          (⟨"B", "Save", "USD", 1, 1, 10,
              [⟨some "t2", none, some 6, none, none, none, some 101, none⟩]⟩ : AccountPayload) ::
            [⟨"C", "Extra", "USD", 1, 1, 10, []⟩])).1.accounts,
        r.id = a.id) :=
  C7_failure_stops_run ⟨[], [], []⟩ 0
    [⟨"A", "Check", "USD", 1, 1, 10, []⟩]
    ⟨"B", "Save", "USD", 1, 1, 10,
      [⟨some "t2", none, some 6, none, none, none, some 101, none⟩]⟩
    [⟨"C", "Extra", "USD", 1, 1, 10, []⟩]
    (by
      intro a ha
      rcases List.mem_singleton.mp ha with rfl
      intro t ht
      simp at ht)
    (by
      intro h
      obtain ⟨p, hp⟩ := h _ (List.mem_cons_self _ _)
      cases hp)

end FinanceSync
